import Mathlib

/-!
Verification of the call-session orchestrator of the waiter repository:
src/server/websocket.ts together with the AIService and ToolService it
drives. Each section shallowly embeds one part of that source and proves
the spec's claims about it:
* the audio output pipeline of sendAudioToTwilio: chunking, base64
  encoding, media frames followed by one mark frame;
* the playback-acknowledgment promise of processConversation (mark
  listener plus 10 s deadline);
* the tool-call loop and follow-up generation of processConversation;
* the cleanup handler and the session lifecycle (start / stop / close);
* the conversation-history updates of AIService;
* the utterance debouncer of the onTranscript handler, as a timed event
  machine over fragment arrivals and quiet-window timer fires.
-/

namespace Waiter

/-! ## Base64, as Buffer.toString with base64 / Buffer.from with base64 use it -/

/-- The index-to-character table of standard base64 (A-Z, a-z, 0-9, plus,
slash). -/
def b64EncChar (i : Nat) : Char :=
  if i < 26 then Char.ofNat (65 + i)
  else if i < 52 then Char.ofNat (97 + (i - 26))
  else if i < 62 then Char.ofNat (48 + (i - 52))
  else if i = 62 then '+'
  else '/'

/-- The character-to-index table of base64 decoding. -/
def b64DecChar (c : Char) : Nat :=
  if 65 ≤ c.toNat ∧ c.toNat ≤ 90 then c.toNat - 65
  else if 97 ≤ c.toNat ∧ c.toNat ≤ 122 then c.toNat - 97 + 26
  else if 48 ≤ c.toNat ∧ c.toNat ≤ 57 then c.toNat - 48 + 52
  else if c = '+' then 62
  else 63

/-- Base64-encode a byte list: groups of three bytes become four characters,
a trailing group of one or two bytes is padded with the pad character. -/
def b64EncodeChars : List Nat → List Char
  | [] => []
  | [b0] => [b64EncChar (b0 / 4), b64EncChar (b0 % 4 * 16), '=', '=']
  | [b0, b1] =>
      [b64EncChar (b0 / 4), b64EncChar (b0 % 4 * 16 + b1 / 16),
        b64EncChar (b1 % 16 * 4), '=']
  | b0 :: b1 :: b2 :: rest =>
      b64EncChar (b0 / 4) :: b64EncChar (b0 % 4 * 16 + b1 / 16) ::
        b64EncChar (b1 % 16 * 4 + b2 / 64) :: b64EncChar (b2 % 64) ::
        b64EncodeChars rest

/-- Base64-decode a character list: groups of four characters become three
bytes, with pad characters ending the input early. -/
def b64DecodeChars : List Char → List Nat
  | c0 :: c1 :: c2 :: c3 :: rest =>
      let d0 := b64DecChar c0
      let d1 := b64DecChar c1
      if c2 = '=' then [d0 * 4 + d1 / 16]
      else
        let d2 := b64DecChar c2
        if c3 = '=' then [d0 * 4 + d1 / 16, d1 % 16 * 16 + d2 / 4]
        else
          (d0 * 4 + d1 / 16) :: (d1 % 16 * 16 + d2 / 4) ::
            (d2 % 4 * 64 + b64DecChar c3) :: b64DecodeChars rest
  | _ => []

/-- chunk.toString with base64 in sendAudioToTwilio. -/
def b64Encode (bytes : List Nat) : String := String.mk (b64EncodeChars bytes)

/-- Buffer.from of a base64 payload. -/
def b64Decode (s : String) : List Nat := b64DecodeChars s.data

theorem b64DecChar_encChar : ∀ i < 64, b64DecChar (b64EncChar i) = i := by decide

theorem b64EncChar_ne_pad : ∀ i < 64, b64EncChar i ≠ '=' := by decide

theorem b64DecodeChars_encodeChars (l : List Nat) (h : ∀ b ∈ l, b < 256) :
    b64DecodeChars (b64EncodeChars l) = l := by
  match l with
  | [] => rfl
  | [b0] =>
    have h0 : b0 < 256 := h b0 (by simp)
    have e1 := b64DecChar_encChar (b0 / 4) (by omega)
    have e2 := b64DecChar_encChar (b0 % 4 * 16) (by omega)
    simp [b64EncodeChars, b64DecodeChars, e1, e2]
    omega
  | [b0, b1] =>
    have h0 : b0 < 256 := h b0 (by simp)
    have h1 : b1 < 256 := h b1 (by simp)
    have n2 := b64EncChar_ne_pad (b1 % 16 * 4) (by omega)
    have e1 := b64DecChar_encChar (b0 / 4) (by omega)
    have e2 := b64DecChar_encChar (b0 % 4 * 16 + b1 / 16) (by omega)
    have e3 := b64DecChar_encChar (b1 % 16 * 4) (by omega)
    simp [b64EncodeChars, b64DecodeChars, n2, e1, e2, e3]
    omega
  | [b0, b1, b2] =>
    have h0 : b0 < 256 := h b0 (by simp)
    have h1 : b1 < 256 := h b1 (by simp)
    have h2 : b2 < 256 := h b2 (by simp)
    have n2 := b64EncChar_ne_pad (b1 % 16 * 4 + b2 / 64) (by omega)
    have n3 := b64EncChar_ne_pad (b2 % 64) (by omega)
    have e1 := b64DecChar_encChar (b0 / 4) (by omega)
    have e2 := b64DecChar_encChar (b0 % 4 * 16 + b1 / 16) (by omega)
    have e3 := b64DecChar_encChar (b1 % 16 * 4 + b2 / 64) (by omega)
    have e4 := b64DecChar_encChar (b2 % 64) (by omega)
    simp [b64EncodeChars, b64DecodeChars, n2, n3, e1, e2, e3, e4]
    omega
  | b0 :: b1 :: b2 :: b3 :: rest =>
    have h0 : b0 < 256 := h b0 (by simp)
    have h1 : b1 < 256 := h b1 (by simp)
    have h2 : b2 < 256 := h b2 (by simp)
    have ih := b64DecodeChars_encodeChars (b3 :: rest) (fun b hb => h b (by simp [hb]))
    have n2 := b64EncChar_ne_pad (b1 % 16 * 4 + b2 / 64) (by omega)
    have n3 := b64EncChar_ne_pad (b2 % 64) (by omega)
    have e1 := b64DecChar_encChar (b0 / 4) (by omega)
    have e2 := b64DecChar_encChar (b0 % 4 * 16 + b1 / 16) (by omega)
    have e3 := b64DecChar_encChar (b1 % 16 * 4 + b2 / 64) (by omega)
    have e4 := b64DecChar_encChar (b2 % 64) (by omega)
    simp [b64EncodeChars, b64DecodeChars, n2, n3, e1, e2, e3, e4, ih]
    omega

theorem b64Decode_encode (l : List Nat) (h : ∀ b ∈ l, b < 256) :
    b64Decode (b64Encode l) = l :=
  b64DecodeChars_encodeChars l h

/-! ## The audio output pipeline: sendAudioToTwilio (websocket.ts 524-587) -/

/-- CHUNK_SIZE of sendAudioToTwilio: 4000 bytes per chunk. -/
def CHUNK_SIZE : Nat := 4000

/-- The slices audioBuffer.slice(i, i + CHUNK_SIZE) for i = 0, CHUNK_SIZE,
2 * CHUNK_SIZE, ... taken by the send loop, in loop order. -/
def chunkBuffer (buf : List Nat) : List (List Nat) :=
  if h : buf = [] then []
  else buf.take CHUNK_SIZE :: chunkBuffer (buf.drop CHUNK_SIZE)
termination_by buf.length
decreasing_by
  have hl : 0 < buf.length := List.length_pos.mpr h
  simp only [List.length_drop, CHUNK_SIZE]
  omega

theorem chunkBuffer_join (buf : List Nat) : (chunkBuffer buf).flatten = buf := by
  rw [chunkBuffer]
  split
  · simp [*]
  · rw [List.flatten_cons, chunkBuffer_join (buf.drop CHUNK_SIZE)]
    exact List.take_append_drop _ _
termination_by buf.length
decreasing_by
  have hl : 0 < buf.length := List.length_pos.mpr (by assumption)
  simp only [List.length_drop, CHUNK_SIZE]
  omega

theorem chunkBuffer_length (buf : List Nat) :
    (chunkBuffer buf).length = (buf.length + (CHUNK_SIZE - 1)) / CHUNK_SIZE := by
  rw [chunkBuffer]
  split
  · simp [*, CHUNK_SIZE]
  · rw [List.length_cons, chunkBuffer_length (buf.drop CHUNK_SIZE)]
    have hl : 0 < buf.length := List.length_pos.mpr (by assumption)
    simp only [List.length_drop, CHUNK_SIZE]
    omega
termination_by buf.length
decreasing_by
  have hl : 0 < buf.length := List.length_pos.mpr (by assumption)
  simp only [List.length_drop, CHUNK_SIZE]
  omega

/-- An outbound Twilio protocol frame written by sendAudioToTwilio. -/
inductive TwilioFrame where
  | media (streamSid : String) (payload : String)
  | mark (streamSid : String) (name : String)
deriving DecidableEq

/-- The connection state sendAudioToTwilio consults before sending. -/
structure ConnectionState where
  isOpen : Bool
  streamSid : Option String
deriving DecidableEq

/-- Shallow embedding of sendAudioToTwilio: the frames written to the
connection, in write order. The buffer is sent in CHUNK_SIZE slices, each
base64-encoded into one media frame, then exactly one mark frame follows,
named by the caller's markName when given and otherwise by the generated
token (audio_ plus Date.now(), passed here as freshName). When no streamSid
is set or the connection is not open, nothing is sent. -/
def sendAudioToTwilio (conn : ConnectionState) (audioBuffer : List Nat)
    (markName : Option String) (freshName : String) : List TwilioFrame :=
  match conn.streamSid with
  | none => []
  | some sid =>
      if conn.isOpen = false then []
      else
        (chunkBuffer audioBuffer).map (fun c => TwilioFrame.media sid (b64Encode c))
          ++ [TwilioFrame.mark sid (markName.getD freshName)]

/-- C2: with the connection open and a stream identifier set, sending a
buffer of length L emits exactly the ceiling of L / CHUNK_SIZE media frames
in order, each a base64-encoded chunk, followed by exactly one mark frame
named by the caller-supplied token when given and the fresh token otherwise;
base64-decoding the media payloads in emission order and concatenating them
restores the original buffer. -/
theorem sendAudioToTwilio_frames (conn : ConnectionState) (sid : String)
    (audioBuffer : List Nat) (markName : Option String) (freshName : String)
    (hopen : conn.isOpen = true) (hsid : conn.streamSid = some sid)
    (hbytes : ∀ b ∈ audioBuffer, b < 256) :
    sendAudioToTwilio conn audioBuffer markName freshName =
        (chunkBuffer audioBuffer).map (fun c => TwilioFrame.media sid (b64Encode c))
          ++ [TwilioFrame.mark sid (markName.getD freshName)] ∧
      (chunkBuffer audioBuffer).length = (audioBuffer.length + (CHUNK_SIZE - 1)) / CHUNK_SIZE ∧
      ((chunkBuffer audioBuffer).map (fun c => b64Decode (b64Encode c))).flatten = audioBuffer := by
  refine ⟨?_, chunkBuffer_length _, ?_⟩
  · simp [sendAudioToTwilio, hsid, hopen]
  · have hc : ∀ c ∈ chunkBuffer audioBuffer, b64Decode (b64Encode c) = c := by
      intro c hcmem
      refine b64Decode_encode c ?_
      intro b hb
      refine hbytes b ?_
      have : b ∈ (chunkBuffer audioBuffer).flatten := List.mem_flatten.mpr ⟨c, hcmem, hb⟩
      rwa [chunkBuffer_join] at this
    calc ((chunkBuffer audioBuffer).map (fun c => b64Decode (b64Encode c))).flatten
        = ((chunkBuffer audioBuffer).map id).flatten := by
          exact congrArg List.flatten (List.map_congr_left hc)
      _ = audioBuffer := by rw [List.map_id]; exact chunkBuffer_join _

/-- Witness for C2 at a concrete input: a 3-byte buffer with the connection
open, stream identifier set and no caller token. -/
theorem sendAudioToTwilio_frames_witness :
    sendAudioToTwilio ⟨true, some "MZ"⟩ [104, 105, 33] none "audio_1" =
        (chunkBuffer [104, 105, 33]).map (fun c => TwilioFrame.media "MZ" (b64Encode c))
          ++ [TwilioFrame.mark "MZ" ((none : Option String).getD "audio_1")] ∧
      (chunkBuffer [104, 105, 33]).length =
        (([104, 105, 33] : List Nat).length + (CHUNK_SIZE - 1)) / CHUNK_SIZE ∧
      ((chunkBuffer [104, 105, 33]).map (fun c => b64Decode (b64Encode c))).flatten =
        [104, 105, 33] :=
  sendAudioToTwilio_frames ⟨true, some "MZ"⟩ "MZ" [104, 105, 33] none "audio_1"
    rfl rfl (by decide)

/-! ## ToolService and the tool loop of processConversation (websocket.ts 387-411) -/

/-- A tool call emitted by the AI backend: name plus arguments. -/
structure ToolCall where
  name : String
  args : List (String × String)
deriving DecidableEq

/-- Result of executeToolCall: success flag, message, optional data. -/
structure ToolResult where
  success : Bool
  message : String
  data : Option String
deriving DecidableEq

/-- The tool loop of processConversation: executes tool calls in array
order, pairing each name with its result; a hang_up_call whose result
reports success returns from processConversation at once (second component
true), leaving the remaining calls unexecuted. exec gives the result of
executeToolCall for the call at each position. -/
def runToolLoop (exec : Nat → ToolResult) : List ToolCall → List (String × ToolResult) × Bool
  | [] => ([], false)
  | tc :: rest =>
      let r := exec 0
      if tc.name = "hang_up_call" ∧ r.success = true then ([(tc.name, r)], true)
      else
        let p := runToolLoop (fun n => exec (n + 1)) rest
        ((tc.name, r) :: p.1, p.2)

/-- After the tool loop, processConversation issues the follow-up AI request
exactly when the loop ran to completion (second component false, meaning no
successful hang_up_call) and collected at least one result. -/
def followUpIssued (exec : Nat → ToolResult) (toolCalls : List ToolCall) : Bool :=
  let p := runToolLoop exec toolCalls
  !p.2 && decide (0 < p.1.length)

/-- C6: if the tool call at position i is a hang_up_call whose execution
reports success and no earlier call already short-circuited the loop, then
exactly the first i+1 calls are executed (in array order), the loop returns
early, and no follow-up AI request is issued. -/
theorem hang_up_short_circuits (tcs : List ToolCall) (exec : Nat → ToolResult) (i : Nat)
    (hi : i < tcs.length)
    (hname : (tcs.getD i ⟨"", []⟩).name = "hang_up_call")
    (hsucc : (exec i).success = true)
    (hfirst : ∀ j, j < i →
      ¬((tcs.getD j ⟨"", []⟩).name = "hang_up_call" ∧ (exec j).success = true)) :
    (runToolLoop exec tcs).1.map Prod.fst = (tcs.take (i + 1)).map ToolCall.name ∧
      (runToolLoop exec tcs).2 = true ∧
      followUpIssued exec tcs = false := by
  induction tcs generalizing exec i with
  | nil => simp at hi
  | cons tc rest ih =>
    match i with
    | 0 =>
      simp only [List.getD_cons_zero] at hname
      have : (tc.name = "hang_up_call" ∧ (exec 0).success = true) := ⟨hname, hsucc⟩
      simp [runToolLoop, followUpIssued, this, hname]
    | j + 1 =>
      have h0 : ¬(tc.name = "hang_up_call" ∧ (exec 0).success = true) := by
        have := hfirst 0 (by omega)
        simpa using this
      have hj : j < rest.length := by simpa using hi
      have ihr := ih (fun n => exec (n + 1)) j hj (by simpa using hname) hsucc
        (fun j2 hj2 => by simpa using hfirst (j2 + 1) (by omega))
      simp only [runToolLoop, if_neg h0, followUpIssued] at ihr ⊢
      refine ⟨?_, ?_, ?_⟩
      · simp [ihr.1]
      · exact ihr.2.1
      · simp [ihr.2.1]

/-- Witness for C6: a successful hang_up_call in first position followed by
a transfer_call; only the first call runs and no follow-up is issued. -/
theorem hang_up_short_circuits_witness :
    (0 : Nat) < ([⟨"hang_up_call", []⟩, ⟨"transfer_call", []⟩] : List ToolCall).length ∧
      ((runToolLoop (fun _ => ⟨true, "Call ended: user_requested", none⟩)
          [⟨"hang_up_call", []⟩, ⟨"transfer_call", []⟩]).1.map Prod.fst =
        (([⟨"hang_up_call", []⟩, ⟨"transfer_call", []⟩] : List ToolCall).take 1).map
          ToolCall.name ∧
      (runToolLoop (fun _ => ⟨true, "Call ended: user_requested", none⟩)
          [⟨"hang_up_call", []⟩, ⟨"transfer_call", []⟩]).2 = true ∧
      followUpIssued (fun _ => ⟨true, "Call ended: user_requested", none⟩)
          [⟨"hang_up_call", []⟩, ⟨"transfer_call", []⟩] = false) :=
  ⟨by decide,
    hang_up_short_circuits [⟨"hang_up_call", []⟩, ⟨"transfer_call", []⟩]
      (fun _ => ⟨true, "Call ended: user_requested", none⟩) 0 (by decide) (by decide)
      (by decide) (fun j hj => by omega)⟩

/-! ## The response and tool orchestrator: processConversation (websocket.ts 282-522) -/

/-- AIResponse of AIService: reply text plus the optional toolCalls array. -/
structure AIResponse where
  text : String
  toolCalls : Option (List ToolCall)
deriving DecidableEq

/-- How the audioPlaybackComplete promise of processConversation got
resolved: by the echoed mark frame with the matching name, by the 10 s
deadline, or by the catch handler of a failed audio send (all three call
resolve, so the orchestrator proceeds in every case). -/
inductive AckOutcome where
  | echo
  | timeout
  | sendFailure
deriving DecidableEq

/-- One observable step of processConversation, in program order. -/
inductive OrchStep where
  | generateAI
  | recordResponse
  | synthesizeText
  | registerMarkListener
  | armAckDeadline
  | sendAudio (withMark : Bool)
  | ackResolved (outcome : AckOutcome)
  | execTool (name : String)
  | generateFollowUp
  | sendFollowUpAudio
deriving DecidableEq

/-- Shallow embedding of the control flow of processConversation for one
flushed utterance, as the ordered list of its observable steps. When the AI
reply carries a non-empty toolCalls array the code builds the
audioPlaybackComplete promise (listener, deadline, audio send with mark),
awaits it, then runs the tool loop and the conditional follow-up; otherwise
it just sends the reply audio without a mark. -/
def processConversationTrace (resp : AIResponse) (outcome : AckOutcome)
    (exec : Nat → ToolResult) : List OrchStep :=
  [OrchStep.generateAI, OrchStep.recordResponse, OrchStep.synthesizeText] ++
    match resp.toolCalls with
    | some (tc :: rest) =>
        let p := runToolLoop exec (tc :: rest)
        [OrchStep.registerMarkListener, OrchStep.armAckDeadline,
            OrchStep.sendAudio true, OrchStep.ackResolved outcome]
          ++ p.1.map (fun q => OrchStep.execTool q.1)
          ++ (if followUpIssued exec (tc :: rest) then
                [OrchStep.generateFollowUp, OrchStep.sendFollowUpAudio]
              else [])
    | _ => [OrchStep.sendAudio false]

/-- C1: whenever the AI reply carries a non-empty toolCalls array, the
orchestration trace splits at the resolution of the pending acknowledgment:
no tool executes before that resolution, and tool execution does occur
after it for every outcome, the 10 s timeout included (timeout is
success-equivalent). -/
theorem tools_only_after_ack (resp : AIResponse) (outcome : AckOutcome)
    (exec : Nat → ToolResult) (tc : ToolCall) (rest : List ToolCall)
    (htc : resp.toolCalls = some (tc :: rest)) :
    ∃ pre post,
      processConversationTrace resp outcome exec =
          pre ++ OrchStep.ackResolved outcome :: post ∧
        (∀ n, OrchStep.execTool n ∉ pre) ∧
        OrchStep.execTool tc.name ∈ post := by
  refine ⟨[OrchStep.generateAI, OrchStep.recordResponse, OrchStep.synthesizeText,
    OrchStep.registerMarkListener, OrchStep.armAckDeadline, OrchStep.sendAudio true],
    (runToolLoop exec (tc :: rest)).1.map (fun q => OrchStep.execTool q.1)
      ++ (if followUpIssued exec (tc :: rest) then
            [OrchStep.generateFollowUp, OrchStep.sendFollowUpAudio]
          else []), ?_, ?_, ?_⟩
  · simp [processConversationTrace, htc]
  · intro n
    simp
  · have hd : ∃ tl, (runToolLoop exec (tc :: rest)).1 = (tc.name, exec 0) :: tl := by
      simp only [runToolLoop]
      split
      · exact ⟨[], rfl⟩
      · exact ⟨_, rfl⟩
    obtain ⟨tl, htl⟩ := hd
    simp [htl]

/-- Witness for C1: one hang_up_call tool call with the promise resolved by
the 10 s timeout; the trace still executes the tool after the resolution
step. -/
theorem tools_only_after_ack_witness :
    ∃ pre post,
      processConversationTrace ⟨"Goodbye!", some [⟨"hang_up_call", []⟩]⟩ AckOutcome.timeout
          (fun _ => ⟨true, "Call ended: user_requested", none⟩) =
          pre ++ OrchStep.ackResolved AckOutcome.timeout :: post ∧
        (∀ n, OrchStep.execTool n ∉ pre) ∧
        OrchStep.execTool (ToolCall.mk "hang_up_call" []).name ∈ post :=
  tools_only_after_ack ⟨"Goodbye!", some [⟨"hang_up_call", []⟩]⟩ AckOutcome.timeout
    (fun _ => ⟨true, "Call ended: user_requested", none⟩) ⟨"hang_up_call", []⟩ [] rfl

/-! ## AIService: generateResponseWithTools and the conversation history -/

/-- A role-tagged message of the per-call conversation history. -/
structure ConversationMessage where
  role : String
  content : String
deriving DecidableEq

/-- What the chat-completion call inside generateResponseWithTools produced:
the call threw, or returned with choices[0]?.message?.content absent or
present. -/
inductive CompletionOutcome where
  | threw
  | returned (content : Option String)
deriving DecidableEq

/-- The fixed fallback reply returned by the catch branch of
generateResponseWithTools; it has no toolCalls field. -/
def fallbackResponse : AIResponse :=
  { text := "I'm sorry, I encountered an error. Could you please repeat that?",
    toolCalls := none }

/-- The try block of generateResponseWithTools: errors are represented as
Except.error (the thrown message). A missing completion content throws; a
content that fails JSON parsing (parse returns none) is kept as plain text
with no tool calls; on success the user message and the reply text are
appended to the history, with no cap. parse stands for JSON.parse. -/
def generateResponseWithToolsBody (completion : CompletionOutcome)
    (parse : String → Option AIResponse) (history : List ConversationMessage)
    (userMessage : String) :
    Except String (AIResponse × List ConversationMessage) :=
  match completion with
  | CompletionOutcome.threw => Except.error "OpenAI API error"
  | CompletionOutcome.returned none => Except.error "No response from AI"
  | CompletionOutcome.returned (some response) =>
      let aiResponse :=
        match parse response with
        | some r => r
        | none => { text := response, toolCalls := none }
      Except.ok (aiResponse,
        history ++ [{ role := "user", content := userMessage },
          { role := "assistant", content := aiResponse.text }])

/-- generateResponseWithTools: the try block with every error caught and
turned into the fixed fallback reply (history untouched on that path). The
function is total: no input makes it raise. -/
def generateResponseWithTools (completion : CompletionOutcome)
    (parse : String → Option AIResponse) (history : List ConversationMessage)
    (userMessage : String) : AIResponse × List ConversationMessage :=
  match generateResponseWithToolsBody completion parse history userMessage with
  | Except.ok result => result
  | Except.error _ => (fallbackResponse, history)

/-- C10: generateResponseWithTools never propagates a failure: a thrown
backend call and an empty completion both land in the catch branch, which
returns the fixed fallback reply asking the user to repeat, with no tool
calls and the history unchanged; indeed every error of the try block is
mapped to that fallback, so no failure reaches the orchestrator. -/
theorem generateResponseWithTools_never_raises :
    (∀ parse history userMessage,
        generateResponseWithTools CompletionOutcome.threw parse history userMessage =
          (fallbackResponse, history)) ∧
      (∀ parse history userMessage,
        generateResponseWithTools (CompletionOutcome.returned none) parse history
            userMessage = (fallbackResponse, history)) ∧
      fallbackResponse.toolCalls = none ∧
      fallbackResponse.text = "I'm sorry, I encountered an error. Could you please repeat that?" ∧
      (∀ completion parse history userMessage e,
        generateResponseWithToolsBody completion parse history userMessage =
            Except.error e →
          generateResponseWithTools completion parse history userMessage =
            (fallbackResponse, history)) := by
  refine ⟨fun _ _ _ => rfl, fun _ _ _ => rfl, rfl, rfl, ?_⟩
  intro completion parse history userMessage e he
  simp [generateResponseWithTools, he]

/-- The history update of generateResponse (websocket.ts ai section, lines
717-725): push the user message and the reply, then keep only the last 20
messages (slice(-20)). -/
def generateResponse_updateHistory (history : List ConversationMessage)
    (userMessage aiReply : String) : List ConversationMessage :=
  let pushed := history ++ [{ role := "user", content := userMessage },
    { role := "assistant", content := aiReply }]
  pushed.drop (pushed.length - 20)

/-- The history update of generateResponseWithTools (lines 1118-1125): push
the user message and the reply text with no slice(-20) cap. -/
def generateResponseWithTools_updateHistory (history : List ConversationMessage)
    (userMessage aiReplyText : String) : List ConversationMessage :=
  history ++ [{ role := "user", content := userMessage },
    { role := "assistant", content := aiReplyText }]

/-- clearConversationHistory: this.conversationHistory.delete(callId),
modelled on the map as a function from call identifiers to optional
histories. -/
def clearConversationHistory (m : String → Option (List ConversationMessage))
    (callId : String) : String → Option (List ConversationMessage) :=
  fun k => if k = callId then none else m k

/-- Counterexample to C8: the history update of generateResponseWithTools
applies no sliding-window cap — starting from a history already at the
20-message window it returns 22 messages. -/
theorem history_cap_counterexample :
    (generateResponseWithTools_updateHistory
        (List.replicate 20 { role := "user", content := "x" }) "u" "a").length = 22 ∧
      ¬((generateResponseWithTools_updateHistory
          (List.replicate 20 { role := "user", content := "x" }) "u" "a").length ≤ 20) := by
  constructor
  · simp [generateResponseWithTools_updateHistory]
  · simp [generateResponseWithTools_updateHistory]

/-- C8 as amended: generateResponse caps the stored history to the last 20
messages, but generateResponseWithTools appends the user and assistant
messages without any cap (growing the history by exactly two per call); the
history of a call is cleared when the session ends. -/
theorem history_cap_amended :
    (∀ history userMessage aiReply,
        (generateResponse_updateHistory history userMessage aiReply).length ≤ 20) ∧
      (∀ history userMessage aiReplyText,
        (generateResponseWithTools_updateHistory history userMessage
            aiReplyText).length = history.length + 2) ∧
      (∀ m callId, clearConversationHistory m callId callId = none) := by
  refine ⟨?_, ?_, ?_⟩
  · intro history userMessage aiReply
    simp only [generateResponse_updateHistory, List.length_drop]
    omega
  · intro history userMessage aiReplyText
    simp [generateResponseWithTools_updateHistory]
  · intro m callId
    simp [clearConversationHistory]

/-! ## Session lifecycle and cleanup (websocket.ts 28-67, 160-261, 589-638)

The CallStatus enum of the shared types module (its copy in the repository
lists INITIATED, CONNECTED, IN_PROGRESS, ENDED, FAILED); CONNECTING is the
value the spec names for a freshly accepted connection, included here so
that statements about it can be made. -/

inductive CallStatus where
  | initiated
  | connecting
  | connected
  | in_progress
  | ended
  | failed
deriving DecidableEq

/-- A transcript entry pushed by the onTranscript handler. The numeric
confidence (a float in the source) is abstracted to a natural number; no
claim depends on its value. -/
structure TranscriptEntry where
  text : String
  timestamp : Nat
  isFinal : Bool
  confidence : Nat
  speaker : String
deriving DecidableEq

/-- An entry of the aiResponses log of a CallSession. -/
structure AIResponseEntry where
  text : String
  timestamp : Nat
  processingTime : Nat
deriving DecidableEq

/-- The CallSession record created by handleCallStart. -/
structure CallSession where
  callSid : String
  phoneNumber : String
  status : CallStatus
  startTime : Nat
  endTime : Option Nat
  transcripts : List TranscriptEntry
  aiResponses : List AIResponseEntry
deriving DecidableEq

/-- The per-connection closure state of the websocket handler together with
the registries it touches (activeConnections and activeCalls keys, and the
call identifiers holding an AIService conversation history). -/
structure WsConnState where
  callSession : Option CallSession
  streamSid : Option String
  connectionTimeoutPending : Bool
  deepgramConn : Bool
  connectionId : String
  activeConnections : List String
  activeCalls : List String
  historyCallIds : List String
deriving DecidableEq

/-- The state right after a connection is accepted: no CallSession, no
stream identifier, the 2-minute idle timer armed, the connection stored in
the registry. -/
def acceptConnection (connectionId : String) (conns calls hist : List String) :
    WsConnState :=
  { callSession := none, streamSid := none, connectionTimeoutPending := true,
    deepgramConn := false, connectionId := connectionId,
    activeConnections := conns ++ [connectionId], activeCalls := calls,
    historyCallIds := hist }

/-- handleCallStart: record the stream identifier, cancel the idle timer,
create the CallSession (status CONNECTED, startTime now) and store it in
activeCalls, then set up the Deepgram connection (dgOk false models the
caught creation failure, which only logs). -/
def handleCallStart (st : WsConnState) (callSid msgStreamSid : String) (now : Nat)
    (dgOk : Bool) : WsConnState :=
  { st with
    streamSid := some msgStreamSid,
    connectionTimeoutPending := false,
    callSession :=
      some { callSid := callSid, phoneNumber := "",
             status := CallStatus.connected, startTime := now, endTime := none,
             transcripts := [], aiResponses := [] },
    activeCalls :=
      if callSid ∈ st.activeCalls then st.activeCalls else st.activeCalls ++ [callSid],
    deepgramConn := dgOk }

/-- One observable effect of the cleanup handler, in execution order. -/
inductive CleanupAction where
  | cancelIdleTimer
  | closeDeepgramConnection
  | removeConnectionEntry
  | removeCallSessionEntry
deriving DecidableEq

/-- The cleanup function (websocket.ts 616-638): cancel the idle timer if
still pending, close the Deepgram connection if present, remove the
connection from the registry, and remove the CallSession entry from
activeCalls when a session exists. Returns the new state and the ordered
list of effects performed. -/
def cleanup (st : WsConnState) : WsConnState × List CleanupAction :=
  let p1 :=
    if st.connectionTimeoutPending then
      ({ st with connectionTimeoutPending := false }, [CleanupAction.cancelIdleTimer])
    else (st, ([] : List CleanupAction))
  let p2 :=
    if p1.1.deepgramConn then
      ({ p1.1 with deepgramConn := false }, [CleanupAction.closeDeepgramConnection])
    else (p1.1, ([] : List CleanupAction))
  let st3 := { p2.1 with
    activeConnections := p2.1.activeConnections.filter (fun k => k != p2.1.connectionId) }
  match st3.callSession with
  | some cs =>
      ({ st3 with activeCalls := st3.activeCalls.filter (fun k => k != cs.callSid) },
        p1.2 ++ p2.2 ++
          [CleanupAction.removeConnectionEntry, CleanupAction.removeCallSessionEntry])
  | none => (st3, p1.2 ++ p2.2 ++ [CleanupAction.removeConnectionEntry])

/-- handleCallStop: when a CallSession exists, mark it ENDED, record the end
time and clear the AI conversation history for its call identifier; then run
cleanup. -/
def handleCallStop (st : WsConnState) (now : Nat) : WsConnState × List CleanupAction :=
  let st1 :=
    match st.callSession with
    | some cs =>
        { st with
          callSession := some { cs with status := CallStatus.ended, endTime := some now },
          historyCallIds := st.historyCallIds.filter (fun k => k != cs.callSid) }
    | none => st
  cleanup st1

/-- C7: cleanup is idempotent — running it twice from any state leaves the
same observable state as running it once — and one invocation performs its
effects in the fixed order: cancel the idle timer if still pending, close
the speech-recognition connection, remove the connection from the registry,
and remove the CallSession entry if a session exists. -/
theorem cleanup_idempotent_and_ordered :
    (∀ st : WsConnState, (cleanup (cleanup st).1).1 = (cleanup st).1) ∧
      (∀ st : WsConnState, (cleanup st).2 =
        (if st.connectionTimeoutPending then [CleanupAction.cancelIdleTimer] else []) ++
          (if st.deepgramConn then [CleanupAction.closeDeepgramConnection] else []) ++
          [CleanupAction.removeConnectionEntry] ++
          (match st.callSession with
            | some _ => [CleanupAction.removeCallSessionEntry]
            | none => [])) := by
  constructor
  · intro st
    obtain ⟨cs, ssid, ct, dg, cid, conns, calls, hist⟩ := st
    cases ct <;> cases dg <;> cases cs <;>
      simp [cleanup, List.filter_filter]
  · intro st
    obtain ⟨cs, ssid, ct, dg, cid, conns, calls, hist⟩ := st
    cases ct <;> cases dg <;> cases cs <;> simp [cleanup]

/-- Counterexample to C9 as stated: no CallSession exists at connection
accept (so none is created with status CONNECTING), the session is created
on the start event with status CONNECTED directly, and a connection close
(cleanup) after start leaves the status CONNECTED rather than ENDED. -/
theorem session_status_counterexample :
    (acceptConnection "conn1" [] [] []).callSession = none ∧
      ((handleCallStart (acceptConnection "conn1" [] [] []) "CA1" "MZ1" 5 true).callSession.map
        CallSession.status = some CallStatus.connected) ∧
      CallStatus.connected ≠ CallStatus.connecting ∧
      ((cleanup (handleCallStart (acceptConnection "conn1" [] [] []) "CA1" "MZ1" 5
          true)).1.callSession.map CallSession.status = some CallStatus.connected) := by
  refine ⟨rfl, rfl, by decide, rfl⟩

/-- C9 as amended: at connection accept no CallSession exists yet; the
CallSession is created by the start event with status CONNECTED and the
start time set; the stop event sets status ENDED and the end time; a
connection close runs cleanup, which removes the connection from the
registry but leaves the session status unchanged. -/
theorem session_lifecycle_amended :
    (∀ cid conns calls hist, (acceptConnection cid conns calls hist).callSession = none) ∧
      (∀ st callSid msgStreamSid now dgOk,
        (handleCallStart st callSid msgStreamSid now dgOk).callSession =
          some { callSid := callSid, phoneNumber := "", status := CallStatus.connected,
                 startTime := now, endTime := none, transcripts := [],
                 aiResponses := [] }) ∧
      (∀ st now, st.callSession ≠ none →
        ((handleCallStop st now).1.callSession.map CallSession.status =
            some CallStatus.ended ∧
          (handleCallStop st now).1.callSession.map CallSession.endTime =
            some (some now))) ∧
      (∀ st, (cleanup st).1.callSession = st.callSession ∧
        st.connectionId ∉ (cleanup st).1.activeConnections) := by
  refine ⟨fun _ _ _ _ => rfl, fun _ _ _ _ _ => rfl, ?_, ?_⟩
  · intro st now hcs
    obtain ⟨cs, ssid, ct, dg, cid, conns, calls, hist⟩ := st
    cases cs with
    | none => exact absurd rfl hcs
    | some c =>
      cases ct <;> cases dg <;>
        simp [handleCallStop, cleanup]
  · intro st
    obtain ⟨cs, ssid, ct, dg, cid, conns, calls, hist⟩ := st
    cases ct <;> cases dg <;> cases cs <;>
      simp [cleanup, List.mem_filter]

/-! ## The PendingAck: audioPlaybackComplete (websocket.ts 337-381)

The promise registers a mark listener on the connection and arms a 10 s
deadline. The listener, on a mark frame whose name matches, calls
removeListener and then resolve; the deadline callback calls removeListener
and then resolve; the catch handler of the audio send clears the deadline,
calls removeListener and resolves. resolve on an already settled promise is
a no-op, and removeListener for a listener no longer registered is a no-op;
nothing clears the deadline timer when the echo arrives first. -/

/-- An event the pending acknowledgment can observe. -/
inductive AckEvent where
  | markMessage (name : String)
  | otherMessage
  | deadlineFire
  | sendAudioFailed
deriving DecidableEq

/-- A call made by one of the resolution paths, in call order. -/
inductive AckMicro where
  | clearDeadlineCall
  | removeListenerCall
  | resolveCall
deriving DecidableEq

/-- The observable state of one audioPlaybackComplete promise. -/
structure AckState where
  listenerAttached : Bool
  timerArmed : Bool
  promiseSettled : Bool
  resolvedBy : Option AckOutcome
  resolveCalls : Nat
  listenerDetachments : Nat
deriving DecidableEq

/-- State right after the promise executor ran: listener registered,
deadline armed, promise pending. -/
def ackInit : AckState :=
  { listenerAttached := true, timerArmed := true, promiseSettled := false,
    resolvedBy := none, resolveCalls := 0, listenerDetachments := 0 }

/-- removeListener: detaches the listener when it is registered, otherwise
a no-op (the call itself is recorded by the micro trace, not here). -/
def detachListener (s : AckState) : AckState :=
  if s.listenerAttached then
    { s with listenerAttached := false, listenerDetachments := s.listenerDetachments + 1 }
  else s

/-- resolve: settles the promise with the given outcome if it is still
pending, otherwise changes nothing but the call count. -/
def resolvePromise (outcome : AckOutcome) (s : AckState) : AckState :=
  { s with resolveCalls := s.resolveCalls + 1,
           promiseSettled := true,
           resolvedBy := if s.promiseSettled then s.resolvedBy else some outcome }

/-- One event of the acknowledgment machine, returning the new state and
the calls the executed path makes, in order. A mark message matching
markName while the listener is attached runs the handler body:
removeListener, then resolve. The deadline callback (fires at most once):
removeListener, then resolve. The catch handler of a failed audio send:
clearTimeout, removeListener, resolve. -/
def ackStep (markName : String) (s : AckState) : AckEvent → AckState × List AckMicro
  | AckEvent.markMessage name =>
      if s.listenerAttached ∧ name = markName then
        (resolvePromise AckOutcome.echo (detachListener s),
          [AckMicro.removeListenerCall, AckMicro.resolveCall])
      else (s, [])
  | AckEvent.otherMessage => (s, [])
  | AckEvent.deadlineFire =>
      if s.timerArmed then
        (resolvePromise AckOutcome.timeout (detachListener { s with timerArmed := false }),
          [AckMicro.removeListenerCall, AckMicro.resolveCall])
      else (s, [])
  | AckEvent.sendAudioFailed =>
      (resolvePromise AckOutcome.sendFailure (detachListener { s with timerArmed := false }),
        [AckMicro.clearDeadlineCall, AckMicro.removeListenerCall, AckMicro.resolveCall])

/-- Run the acknowledgment machine over an event list, concatenating the
micro-call traces. -/
def ackRun (markName : String) (s : AckState) : List AckEvent → AckState × List AckMicro
  | [] => (s, [])
  | e :: evs =>
      let p := ackStep markName s e
      let q := ackRun markName p.1 evs
      (q.1, p.2 ++ q.2)

theorem detachListener_promiseSettled (s : AckState) :
    (detachListener s).promiseSettled = s.promiseSettled := by
  unfold detachListener
  split <;> rfl

theorem detachListener_resolvedBy (s : AckState) :
    (detachListener s).resolvedBy = s.resolvedBy := by
  unfold detachListener
  split <;> rfl

theorem ackStep_settled (markName : String) (s : AckState) (e : AckEvent)
    (h : s.promiseSettled = true) :
    (ackStep markName s e).1.promiseSettled = true ∧
      (ackStep markName s e).1.resolvedBy = s.resolvedBy := by
  cases e with
  | markMessage name =>
    simp only [ackStep]
    split
    · exact ⟨rfl, by
        simp [resolvePromise, detachListener_promiseSettled, detachListener_resolvedBy, h]⟩
    · exact ⟨h, rfl⟩
  | otherMessage => exact ⟨h, rfl⟩
  | deadlineFire =>
    simp only [ackStep]
    split
    · exact ⟨rfl, by
        simp [resolvePromise, detachListener_promiseSettled, detachListener_resolvedBy, h]⟩
    · exact ⟨h, rfl⟩
  | sendAudioFailed =>
    exact ⟨rfl, by
      simp [ackStep, resolvePromise, detachListener_promiseSettled,
        detachListener_resolvedBy, h]⟩

theorem ackRun_settled (markName : String) (s : AckState) (evs : List AckEvent)
    (h : s.promiseSettled = true) :
    (ackRun markName s evs).1.resolvedBy = s.resolvedBy := by
  induction evs generalizing s with
  | nil => rfl
  | cons e evs ih =>
    have hs := ackStep_settled markName s e h
    simp only [ackRun]
    rw [ih _ hs.1, hs.2]

theorem ackStep_nonmatching (markName : String) (s : AckState) (name : String)
    (h : name ≠ markName) :
    ackStep markName s (AckEvent.markMessage name) = (s, []) := by
  simp [ackStep, h]

theorem ackRun_inert (markName : String) (s : AckState) (pre : List AckEvent)
    (hpre : ∀ e ∈ pre, e = AckEvent.otherMessage ∨
      ∃ n, n ≠ markName ∧ e = AckEvent.markMessage n) :
    ackRun markName s pre = (s, []) := by
  induction pre with
  | nil => rfl
  | cons e evs ih =>
    rcases hpre e (by simp) with he | ⟨n, hn, he⟩ <;> subst he
    · simp only [ackRun, ackStep]
      exact ih (fun e2 h2 => hpre e2 (by simp [h2]))
    · simp only [ackRun, ackStep_nonmatching markName s n hn]
      exact ih (fun e2 h2 => hpre e2 (by simp [h2]))

theorem detachListener_bounded (t : AckState)
    (ht : t.listenerAttached = true → t.listenerDetachments = 0)
    (ht1 : t.listenerDetachments ≤ 1) :
    ((detachListener t).listenerAttached = true →
        (detachListener t).listenerDetachments = 0) ∧
      (detachListener t).listenerDetachments ≤ 1 := by
  unfold detachListener
  split
  · refine ⟨fun hh => by simp at hh, ?_⟩
    have := ht (by assumption)
    simp only []
    omega
  · exact ⟨ht, ht1⟩

theorem ackStep_detach_bounded (markName : String) (s : AckState) (e : AckEvent)
    (h : s.listenerAttached = true → s.listenerDetachments = 0)
    (h1 : s.listenerDetachments ≤ 1) :
    ((ackStep markName s e).1.listenerAttached = true →
        (ackStep markName s e).1.listenerDetachments = 0) ∧
      (ackStep markName s e).1.listenerDetachments ≤ 1 := by
  cases e with
  | markMessage name =>
    simp only [ackStep]
    split
    · exact detachListener_bounded s h h1
    · exact ⟨h, h1⟩
  | otherMessage => exact ⟨h, h1⟩
  | deadlineFire =>
    simp only [ackStep]
    split
    · exact detachListener_bounded { s with timerArmed := false } h h1
    · exact ⟨h, h1⟩
  | sendAudioFailed =>
    exact detachListener_bounded { s with timerArmed := false } h h1

theorem ackRun_append_fst (markName : String) (s : AckState) (l1 l2 : List AckEvent) :
    (ackRun markName s (l1 ++ l2)).1 = (ackRun markName (ackRun markName s l1).1 l2).1 := by
  induction l1 generalizing s with
  | nil => rfl
  | cons e evs ih => simp [ackRun, ih]

/-- Counterexample to C4 as stated: the matching-echo handler calls
removeListener before resolve (detach-then-resolve, not resolve-then-detach),
and a successful echo resolution does not cancel the deadline timer — when
the deadline later fires it calls resolve a second time (a no-op only
because the promise is already settled). -/
theorem pendingAck_counterexample :
    ((ackStep "audio_1" ackInit (AckEvent.markMessage "audio_1")).2 =
        [AckMicro.removeListenerCall, AckMicro.resolveCall]) ∧
      ¬((ackStep "audio_1" ackInit (AckEvent.markMessage "audio_1")).2.indexOf
            AckMicro.resolveCall <
          (ackStep "audio_1" ackInit (AckEvent.markMessage "audio_1")).2.indexOf
            AckMicro.removeListenerCall) ∧
      (ackRun "audio_1" ackInit
          [AckEvent.markMessage "audio_1", AckEvent.deadlineFire]).1.resolveCalls = 2 ∧
      (ackRun "audio_1" ackInit
          [AckEvent.markMessage "audio_1", AckEvent.deadlineFire]).1.resolvedBy =
        some AckOutcome.echo := by decide

/-- C4 as amended: a matching echo resolves the pending acknowledgment and
detaches the listener; a non-matching echo changes nothing; with no matching
echo before the deadline, the deadline resolves it by timeout exactly once;
every resolution path calls removeListener first and resolve second
(detach-then-resolve); the listener is effectively deregistered at most
once, and once the promise settles its outcome never changes — the deadline
timer is not cancelled by an echo, its later fire is a no-op on the settled
promise. -/
theorem pendingAck_amended :
    (∀ markName s name, name ≠ markName →
        ackStep markName s (AckEvent.markMessage name) = (s, [])) ∧
      (∀ markName, ackStep markName ackInit (AckEvent.markMessage markName) =
        ({ listenerAttached := false, timerArmed := true, promiseSettled := true,
           resolvedBy := some AckOutcome.echo, resolveCalls := 1,
           listenerDetachments := 1 },
         [AckMicro.removeListenerCall, AckMicro.resolveCall])) ∧
      (∀ markName pre,
        (∀ e ∈ pre, e = AckEvent.otherMessage ∨
          ∃ n, n ≠ markName ∧ e = AckEvent.markMessage n) →
        (ackRun markName ackInit (pre ++ [AckEvent.deadlineFire])).1 =
          { listenerAttached := false, timerArmed := false, promiseSettled := true,
            resolvedBy := some AckOutcome.timeout, resolveCalls := 1,
            listenerDetachments := 1 }) ∧
      (∀ markName s evs, s.promiseSettled = true →
        (ackRun markName s evs).1.resolvedBy = s.resolvedBy) ∧
      (∀ markName s e, (ackStep markName s e).2 ≠
        [AckMicro.resolveCall, AckMicro.removeListenerCall]) ∧
      (∀ markName evs, (ackRun markName ackInit evs).1.listenerDetachments ≤ 1) := by
  refine ⟨ackStep_nonmatching, ?_, ?_, fun mk s evs h => ackRun_settled mk s evs h, ?_, ?_⟩
  · intro markName
    simp [ackStep, ackInit, detachListener, resolvePromise]
  · intro markName pre hpre
    have h1 : ackRun markName ackInit pre = (ackInit, []) := ackRun_inert _ _ _ hpre
    rw [ackRun_append_fst, h1]
    simp [ackRun, ackStep, ackInit, detachListener, resolvePromise]
  · intro markName s e
    cases e <;> simp only [ackStep] <;> first | (split <;> simp) | simp
  · intro markName evs
    have key : ∀ s, (s.listenerAttached = true → s.listenerDetachments = 0) →
        s.listenerDetachments ≤ 1 →
        (ackRun markName s evs).1.listenerDetachments ≤ 1 := by
      induction evs with
      | nil => intro s h h1; exact h1
      | cons e evs ih =>
        intro s h h1
        have hs := ackStep_detach_bounded markName s e h h1
        simpa [ackRun] using ih _ hs.1 hs.2
    exact key ackInit (fun _ => rfl) (by simp [ackInit])

/-! ## The utterance debouncer: the onTranscript handler (websocket.ts 192-226)

Each final transcript with nonempty trimmed text is appended to
conversationBuffer (plus a trailing blank), refreshes lastSpeechTime, and
schedules a timer 1000 ms out; a firing timer flushes the trimmed buffer to
processConversation and clears it only when at least 1000 ms have passed
since the last speech and the trimmed buffer is nonempty. trim is
the trim of JavaScript strings, embedded below as jsTrim. -/

/-- JavaScript String.prototype.trim: remove leading and trailing
whitespace. -/
def jsTrim (s : String) : String :=
  String.mk (((s.data.dropWhile Char.isWhitespace).reverse.dropWhile
    Char.isWhitespace).reverse)

theorem jsTrim_eq_empty_iff (s : String) :
    jsTrim s = "" ↔ ∀ c ∈ s.data, c.isWhitespace = true := by
  unfold jsTrim
  constructor
  · intro h c hc
    have hdata : (((s.data.dropWhile Char.isWhitespace).reverse.dropWhile
        Char.isWhitespace).reverse) = [] := congrArg String.data h
    rw [List.reverse_eq_nil_iff, List.dropWhile_eq_nil_iff] at hdata
    have hall : ∀ c ∈ s.data.dropWhile Char.isWhitespace, c.isWhitespace = true := by
      intro c2 hc2
      have := hdata c2 (by simpa using hc2)
      simpa using this
    have hsplit := List.takeWhile_append_dropWhile (p := Char.isWhitespace) (l := s.data)
    rw [← hsplit] at hc
    rcases List.mem_append.mp hc with hc2 | hc2
    · exact List.mem_takeWhile_imp hc2
    · exact hall c hc2
  · intro h
    have : s.data.dropWhile Char.isWhitespace = [] :=
      List.dropWhile_eq_nil_iff.mpr (fun c hc => by simp [h c hc])
    simp [this]

theorem jsTrim_ne_empty_append (a b c : String) (hb : jsTrim b ≠ "") :
    jsTrim (a ++ b ++ c) ≠ "" := by
  intro hcontra
  refine hb ((jsTrim_eq_empty_iff b).mpr ?_)
  intro ch hch
  refine (jsTrim_eq_empty_iff (a ++ b ++ c)).mp hcontra ch ?_
  simp only [String.data_append, List.mem_append]
  exact Or.inl (Or.inr hch)

/-- An event of the debouncer: a transcript result arriving from the speech
backend at time t, or a quiet-window timer (scheduled by a fragment 1000 ms
earlier) firing at time t. -/
inductive DebEvent where
  | transcriptResult (t : Nat) (text : String) (isFinal : Bool)
  | timerFire (t : Nat)
deriving DecidableEq

/-- The debouncer state: conversationBuffer, lastSpeechTime, and the
utterances flushed to processConversation so far (flush time and text). -/
structure DebState where
  conversationBuffer : String
  lastSpeechTime : Nat
  flushes : List (Nat × String)
deriving DecidableEq

/-- The quiet window: the setTimeout delay and the elapsed-time threshold,
both 1000 ms. -/
def QUIET_WINDOW : Nat := 1000

/-- One debouncer event. A final transcript with nonempty trimmed text is
buffered (text plus a blank) and refreshes lastSpeechTime; any other
transcript is ignored. A firing timer whose check passes (at least
QUIET_WINDOW since last speech, trimmed buffer nonempty) flushes the
trimmed buffer and clears it; otherwise it is a no-op. In the source the
clear happens after the awaited processConversation returns; no event of
the traces below intervenes in between, so the clear is modelled atomically
with the flush. -/
def debStep (s : DebState) : DebEvent → DebState
  | DebEvent.transcriptResult t text isFinal =>
      if isFinal = true ∧ jsTrim text ≠ "" then
        { s with conversationBuffer := s.conversationBuffer ++ text ++ " ",
                 lastSpeechTime := t }
      else s
  | DebEvent.timerFire t =>
      if QUIET_WINDOW ≤ t - s.lastSpeechTime ∧ jsTrim s.conversationBuffer ≠ "" then
        { s with flushes := s.flushes ++ [(t, jsTrim s.conversationBuffer)],
                 conversationBuffer := "" }
      else s

/-- Run the debouncer over an event list. -/
def debRun (s : DebState) : List DebEvent → DebState
  | [] => s
  | e :: evs => debRun (debStep s e) evs

/-- State of the handler closure before any transcript: empty buffer,
lastSpeechTime initialised to the accept-time Date.now(). -/
def debInit (t0 : Nat) : DebState :=
  { conversationBuffer := "", lastSpeechTime := t0, flushes := [] }

/-- The merged event trace of a debouncer run: the fragments (time, text),
already sorted by arrival time, interleaved in time order with the timer
fires each fragment schedules QUIET_WINDOW ms after itself. pending holds
timers scheduled but not yet fired. When a timer and a fragment fall on the
same instant the fragment goes first; no conclusion below depends on that
tie order. -/
def debTrace : List (Nat × String) → List Nat → List DebEvent
  | [], pending => pending.map DebEvent.timerFire
  | (t, text) :: rest, pending =>
      (pending.filter (fun p => decide (p < t))).map DebEvent.timerFire
        ++ DebEvent.transcriptResult t text true
        :: debTrace rest (pending.filter (fun p => decide (¬ p < t)) ++ [t + QUIET_WINDOW])

/-- The buffer contents the fragments accumulate: each text plus one
trailing blank. -/
def fragConcat : List (Nat × String) → String
  | [] => ""
  | p :: rest => p.2 ++ " " ++ fragConcat rest

/-- Arrival time of the last fragment. -/
def lastFragTime : List (Nat × String) → Nat
  | [] => 0
  | [p] => p.1
  | _ :: rest => lastFragTime rest

theorem debRun_append (s : DebState) (l1 l2 : List DebEvent) :
    debRun s (l1 ++ l2) = debRun (debRun s l1) l2 := by
  induction l1 generalizing s with
  | nil => rfl
  | cons e evs ih => simp [debRun, ih]

/-- Timer fires strictly inside the quiet window of the last speech change
nothing. -/
theorem debRun_earlyFires (ps : List Nat) (s : DebState)
    (h : ∀ p ∈ ps, p < s.lastSpeechTime + QUIET_WINDOW) :
    debRun s (ps.map DebEvent.timerFire) = s := by
  induction ps with
  | nil => rfl
  | cons p ps ih =>
    have hp := h p (by simp)
    have hcond : ¬(QUIET_WINDOW ≤ p - s.lastSpeechTime ∧
        jsTrim s.conversationBuffer ≠ "") := by
      rintro ⟨h1, -⟩
      simp only [QUIET_WINDOW] at h1 hp
      omega
    simp only [List.map_cons, debRun, debStep, if_neg hcond]
    exact ih (fun q hq => h q (by simp [hq]))

/-- Processing the remaining fires after the last fragment: the stale ones
(strictly inside the quiet window) do nothing, the one scheduled by the
last fragment flushes the trimmed buffer and clears it. -/
theorem debRun_flushPhase (A : List Nat) (s : DebState) (tn : Nat)
    (hA : ∀ p ∈ A, p < tn + QUIET_WINDOW)
    (hls : s.lastSpeechTime = tn)
    (hbuf : jsTrim s.conversationBuffer ≠ "") :
    debRun s ((A ++ [tn + QUIET_WINDOW]).map DebEvent.timerFire) =
      { conversationBuffer := "", lastSpeechTime := tn,
        flushes := s.flushes ++ [(tn + QUIET_WINDOW, jsTrim s.conversationBuffer)] } := by
  rw [List.map_append, debRun_append]
  rw [debRun_earlyFires A s (by rw [hls]; exact hA)]
  have hcond : QUIET_WINDOW ≤ (tn + QUIET_WINDOW) - s.lastSpeechTime ∧
      jsTrim s.conversationBuffer ≠ "" := by
    refine ⟨by rw [hls]; omega, hbuf⟩
  simp only [List.map_cons, List.map_nil, debRun, debStep, if_pos hcond]
  cases s
  simp only at hls
  subst hls
  rfl

/-- The main induction for the debouncer: from any state, fragments whose
consecutive gaps stay inside the quiet window produce exactly one flush,
carrying the whole buffered text, at the last arrival plus the quiet
window. pending holds the timers already scheduled; the two side conditions
say they cannot flush early. -/
theorem debRun_cons (s : DebState) (e : DebEvent) (evs : List DebEvent) :
    debRun s (e :: evs) = debRun (debStep s e) evs := rfl

theorem debStep_finalFragment (s : DebState) (t : Nat) (x : String)
    (hx : jsTrim x ≠ "") :
    debStep s (DebEvent.transcriptResult t x true) =
      { s with conversationBuffer := s.conversationBuffer ++ x ++ " ",
               lastSpeechTime := t } := by
  simp [debStep, hx]

theorem debounce_go (t : Nat) (x : String) (rest : List (Nat × String))
    (pending : List Nat) (s : DebState)
    (hchain : List.Chain'
      (fun a b : Nat × String => a.1 < b.1 ∧ b.1 < a.1 + QUIET_WINDOW) ((t, x) :: rest))
    (htrim : ∀ p ∈ (t, x) :: rest, jsTrim p.2 ≠ "")
    (hpend1 : ∀ p ∈ pending, p < t → p < s.lastSpeechTime + QUIET_WINDOW)
    (hpend2 : ∀ p ∈ pending, p < t + QUIET_WINDOW) :
    debRun s (debTrace ((t, x) :: rest) pending) =
      { conversationBuffer := "",
        lastSpeechTime := lastFragTime ((t, x) :: rest),
        flushes := s.flushes ++ [(lastFragTime ((t, x) :: rest) + QUIET_WINDOW,
          jsTrim (s.conversationBuffer ++ fragConcat ((t, x) :: rest)))] } := by
  induction rest generalizing t x pending s with
  | nil =>
    have hx : jsTrim x ≠ "" := htrim (t, x) (by simp)
    have hearly : ∀ p ∈ pending.filter (fun p => decide (p < t)),
        p < s.lastSpeechTime + QUIET_WINDOW := by
      intro p hp
      exact hpend1 p (List.mem_filter.mp hp).1
        (by simpa using (List.mem_filter.mp hp).2)
    have hA : ∀ p ∈ pending.filter (fun p => decide (¬ p < t)),
        p < t + QUIET_WINDOW := by
      intro p hp
      exact hpend2 p (List.mem_filter.mp hp).1
    show debRun s ((pending.filter (fun p => decide (p < t))).map DebEvent.timerFire
        ++ DebEvent.transcriptResult t x true
        :: ((pending.filter (fun p => decide (¬ p < t)) ++ [t + QUIET_WINDOW]).map
          DebEvent.timerFire)) = _
    rw [debRun_append, debRun_earlyFires _ s hearly, debRun_cons,
      debStep_finalFragment s t x hx,
      debRun_flushPhase _ _ t hA rfl (jsTrim_ne_empty_append _ _ _ hx)]
    simp [lastFragTime, fragConcat, String.append_empty, String.append_assoc]
  | cons q rest2 ih =>
    obtain ⟨t2, x2⟩ := q
    have hrel : t < t2 ∧ t2 < t + QUIET_WINDOW := (List.chain'_cons.mp hchain).1
    have hchain2 := (List.chain'_cons.mp hchain).2
    have hx : jsTrim x ≠ "" := htrim (t, x) (by simp)
    have hearly : ∀ p ∈ pending.filter (fun p => decide (p < t)),
        p < s.lastSpeechTime + QUIET_WINDOW := by
      intro p hp
      exact hpend1 p (List.mem_filter.mp hp).1
        (by simpa using (List.mem_filter.mp hp).2)
    have hp1 : ∀ p ∈ pending.filter (fun p => decide (¬ p < t)) ++ [t + QUIET_WINDOW],
        p < t2 → p < t + QUIET_WINDOW := by
      intro p hp hlt
      rcases List.mem_append.mp hp with hmem | hmem
      · exact hpend2 p (List.mem_filter.mp hmem).1
      · have hpe : p = t + QUIET_WINDOW := by simpa using hmem
        subst hpe
        have := hrel.2
        omega
    have hp2 : ∀ p ∈ pending.filter (fun p => decide (¬ p < t)) ++ [t + QUIET_WINDOW],
        p < t2 + QUIET_WINDOW := by
      intro p hp
      have ht12 := hrel.1
      rcases List.mem_append.mp hp with hmem | hmem
      · have := hpend2 p (List.mem_filter.mp hmem).1
        omega
      · have hpe : p = t + QUIET_WINDOW := by simpa using hmem
        omega
    show debRun s ((pending.filter (fun p => decide (p < t))).map DebEvent.timerFire
        ++ DebEvent.transcriptResult t x true
        :: debTrace ((t2, x2) :: rest2)
          (pending.filter (fun p => decide (¬ p < t)) ++ [t + QUIET_WINDOW])) = _
    rw [debRun_append, debRun_earlyFires _ s hearly, debRun_cons,
      debStep_finalFragment s t x hx,
      ih t2 x2 _ _ hchain2 (fun p hp => htrim p (by simp [hp])) hp1 hp2]
    simp [lastFragTime, fragConcat, String.append_assoc]

/-- C3: final transcript fragments that each arrive inside the quiet window
of their predecessor are flushed exactly once, as one utterance carrying
the whole concatenation (each fragment followed by one blank, the result
trimmed) at the last arrival plus the quiet window; and a timer firing over
an empty (all-whitespace) buffer performs no flush at all. -/
theorem debouncer_single_flush (frags : List (Nat × String)) (t0 : Nat)
    (hne : frags ≠ [])
    (hchain : List.Chain'
      (fun a b : Nat × String => a.1 < b.1 ∧ b.1 < a.1 + QUIET_WINDOW) frags)
    (htrim : ∀ p ∈ frags, jsTrim p.2 ≠ "") :
    (debRun (debInit t0) (debTrace frags [])).flushes =
        [(lastFragTime frags + QUIET_WINDOW, jsTrim (fragConcat frags))] ∧
      (∀ (s : DebState) (u : Nat), jsTrim s.conversationBuffer = "" →
        debStep s (DebEvent.timerFire u) = s) := by
  constructor
  · match frags, hne with
    | (t, x) :: rest, _ =>
      rw [debounce_go t x rest [] (debInit t0) hchain htrim (by simp) (by simp)]
      simp [debInit]
  · intro s u hbuf
    simp [debStep, hbuf]

/-- Witness for C3: two fragments 500 ms apart flush once, 1000 ms after
the second, as the single utterance with both texts. -/
theorem debouncer_single_flush_witness :
    ([((0 : Nat), "hello"), (500, "there")] : List (Nat × String)) ≠ [] ∧
      ((debRun (debInit 0) (debTrace [(0, "hello"), (500, "there")] [])).flushes =
          [(lastFragTime [(0, "hello"), (500, "there")] + QUIET_WINDOW,
            jsTrim (fragConcat [(0, "hello"), (500, "there")]))] ∧
        (∀ (s : DebState) (u : Nat), jsTrim s.conversationBuffer = "" →
          debStep s (DebEvent.timerFire u) = s)) :=
  ⟨by decide, debouncer_single_flush [(0, "hello"), (500, "there")] 0 (by decide)
    (List.chain'_cons.mpr ⟨by norm_num [QUIET_WINDOW], List.chain'_singleton _⟩)
    (by decide)⟩

/-! ## One orchestration at a time? (claim C5)

processConversation is started by a firing debounce timer and suspends on
the AI, TTS and acknowledgment awaits; nothing in the source prevents a
later flush from starting a second orchestration while the first is still
suspended. The runs below pair each flush time with the duration of the
orchestration it starts. -/

/-- The orchestrations spawned by the flushes: (start time, duration) per
flush, in flush order. -/
def flushRuns (flushTimes : List Nat) (dur : Nat → Nat) : List (Nat × Nat) :=
  flushTimes.enum.map (fun p => (p.2, dur p.1))

/-- Serialization of the orchestrator as claim C5 states it: every flush
happens at or after the completion of the orchestration started by the
previous flush. -/
def orchestrationsSerialized (runs : List (Nat × Nat)) : Prop :=
  List.Chain' (fun a b => a.1 + a.2 ≤ b.1) runs

/-- How many orchestrations are in flight at instant u. -/
def inFlightCount (runs : List (Nat × Nat)) (u : Nat) : Nat :=
  (runs.filter (fun r => decide (r.1 ≤ u ∧ u < r.1 + r.2))).length

theorem chain_start_bound (a : Nat × Nat) (l : List (Nat × Nat))
    (h : List.Chain' (fun x y : Nat × Nat => x.1 + x.2 ≤ y.1) (a :: l)) :
    ∀ b ∈ l, a.1 + a.2 ≤ b.1 := by
  induction l generalizing a with
  | nil => simp
  | cons c l2 ih =>
    intro b hb
    have hac : a.1 + a.2 ≤ c.1 := (List.chain'_cons.mp h).1
    rcases List.mem_cons.mp hb with hb | hb
    · subst hb; exact hac
    · have hc := ih c (List.chain'_cons.mp h).2 b hb
      omega

theorem chain_inFlight_le_one (runs : List (Nat × Nat))
    (h : orchestrationsSerialized runs) (u : Nat) :
    inFlightCount runs u ≤ 1 := by
  induction runs with
  | nil => simp [inFlightCount]
  | cons a l ih =>
    simp only [inFlightCount] at ih ⊢
    by_cases hin : a.1 ≤ u ∧ u < a.1 + a.2
    · have hzero : (l.filter (fun r => decide (r.1 ≤ u ∧ u < r.1 + r.2))).length = 0 := by
        rw [List.length_eq_zero, List.filter_eq_nil_iff]
        intro b hb
        have := chain_start_bound a l h b hb
        simp only [decide_eq_true_eq]
        omega
      simp only [List.filter_cons]
      rw [if_pos (by simpa using hin), List.length_cons, hzero]
    · simp only [List.filter_cons]
      rw [if_neg (by simpa using hin)]
      exact ih (List.Chain'.tail h)

/-- Counterexample to C5 as stated: a fragment at 0 ms flushes at 1000 ms;
a second fragment at 1100 ms flushes at 2100 ms; with the first
orchestration taking 3000 ms (an AI plus TTS plus acknowledgment wait well
inside observed latencies) the second orchestration starts at 2100 ms while
the first is still in flight — two orchestrations (and so possibly two
PendingAcks) overlap at 2100 ms. -/
theorem orchestration_overlap_counterexample :
    ((debRun (debInit 0) (debTrace [(0, "hello"), (1100, "again")] [])).flushes.map
        Prod.fst = [1000, 2100]) ∧
      ¬ orchestrationsSerialized (flushRuns
          ((debRun (debInit 0) (debTrace [(0, "hello"), (1100, "again")] [])).flushes.map
            Prod.fst) (fun _ => 3000)) ∧
      inFlightCount (flushRuns [1000, 2100] (fun _ => 3000)) 2100 = 2 := by
  refine ⟨by decide, ?_, by decide⟩
  intro hser
  have hflush : (debRun (debInit 0)
      (debTrace [(0, "hello"), (1100, "again")] [])).flushes.map Prod.fst =
      [1000, 2100] := by decide
  rw [hflush] at hser
  have hruns : flushRuns [1000, 2100] (fun _ => 3000) = [(1000, 3000), (2100, 3000)] := by
    decide
  rw [orchestrationsSerialized, hruns] at hser
  exact absurd (List.chain'_cons.mp hser).1 (by decide)

/-- C5 as amended: the debouncer alone does not serialize orchestrations —
re-entry is possible (see the counterexample); at most one orchestration is
in flight at any instant exactly under the additional assumption that every
flush happens no earlier than the completion of the orchestration started
by the previous flush. -/
theorem at_most_one_orchestration_amended (frags : List (Nat × String)) (t0 : Nat)
    (dur : Nat → Nat) (u : Nat)
    (hser : orchestrationsSerialized (flushRuns
      ((debRun (debInit t0) (debTrace frags [])).flushes.map Prod.fst) dur)) :
    inFlightCount (flushRuns
      ((debRun (debInit t0) (debTrace frags [])).flushes.map Prod.fst) dur) u ≤ 1 :=
  chain_inFlight_le_one _ hser u

/-- Witness for the amended C5: a single fragment, one flush, trivially at
most one orchestration in flight at 1500 ms. -/
theorem at_most_one_orchestration_amended_witness :
    inFlightCount (flushRuns
      ((debRun (debInit 0) (debTrace [(0, "hello")] [])).flushes.map Prod.fst)
      (fun _ => 3000)) 1500 ≤ 1 :=
  at_most_one_orchestration_amended [(0, "hello")] 0 (fun _ => 3000) 1500 (by
    have hflush : (debRun (debInit 0) (debTrace [(0, "hello")] [])).flushes.map
        Prod.fst = [1000] := by decide
    have hruns : flushRuns [1000] (fun _ => 3000) = [(1000, 3000)] := by decide
    rw [orchestrationsSerialized, hflush, hruns]
    exact List.chain'_singleton _)

end Waiter
